import Mathlib

/-!
Verification of the Learning-Tool backend (transcript cleaning, request
validation, AI-output normalization, JSON extraction, YouTube URL parsing,
TTL result cache and the processing orchestrator) against its
natural-language specification.  JavaScript strings are modelled as Lean
`String`/`List Char` (one entry per code point); JS semantics such as
regular-expression scanning, truthiness and `trim` are embedded explicitly.
-/

namespace LearningTool

/-! ### JavaScript character classes -/

/-- The JS whitespace class: the set matched by the regex `\s` and removed by
`String.prototype.trim` (WhiteSpace plus LineTerminator). -/
def isJsWs (c : Char) : Bool :=
  c = ' ' || c = '\t' || c = '\n' || c = Char.ofNat 11 || c = Char.ofNat 12 ||
  c = '\r' || c = Char.ofNat 0xA0 || c = Char.ofNat 0x1680 ||
  (Char.ofNat 0x2000 ≤ c && c ≤ Char.ofNat 0x200A) ||
  c = Char.ofNat 0x2028 || c = Char.ofNat 0x2029 || c = Char.ofNat 0x202F ||
  c = Char.ofNat 0x205F || c = Char.ofNat 0x3000 || c = Char.ofNat 0xFEFF

/-- JS line terminators, which the regex `.` does not match. -/
def isLineTerm (c : Char) : Bool :=
  c = '\n' || c = '\r' || c = Char.ofNat 0x2028 || c = Char.ofNat 0x2029

/-! ### `String.prototype.trim` -/

/-- Drop trailing JS whitespace. -/
def dropTrail (l : List Char) : List Char :=
  (l.reverse.dropWhile isJsWs).reverse

/-- JS `trim` on a character list: strip leading and trailing whitespace. -/
def trimL (l : List Char) : List Char :=
  dropTrail (l.dropWhile isJsWs)

/-- JS `String.prototype.trim`. -/
def jsTrim (s : String) : String :=
  ⟨trimL s.data⟩

/-! ### `text.replace(/\s+/g, ' ')` — whitespace collapsing -/

/-- State machine for the global replacement of `\s+` by a single space:
the flag records whether the previous character was part of a whitespace
run already emitted as `' '`. -/
def collapseAux : Bool → List Char → List Char
  | _, [] => []
  | prevWs, c :: cs =>
    if isJsWs c then
      if prevWs then collapseAux true cs else ' ' :: collapseAux true cs
    else c :: collapseAux false cs

/-- `text.replace(/\s+/g, ' ')`: every maximal whitespace run becomes one space. -/
def collapseWs (l : List Char) : List Char :=
  collapseAux false l

/-! ### `text.replace(/\[.*?\]/g, '')` and `text.replace(/\(.*?\)/g, '')` -/

/-- Scan for the closing delimiter: the lazy `.` loop of `/\[.*?\]/` stops at
the first closing character and cannot cross a line terminator.  Returns the
remainder after the closing character when the match succeeds. -/
def seekClose (closeC : Char) : List Char → Option (List Char)
  | [] => none
  | c :: cs =>
    if c = closeC then some cs
    else if isLineTerm c then none
    else seekClose closeC cs

/-- Global replacement of `/open.*?close/` by the empty string, with `fuel`
bounding the number of scan steps (`fuel ≥ length` always suffices).  At a
position where the open delimiter has no reachable close, the regex engine
advances by one character. -/
def removeDelim (openC closeC : Char) : Nat → List Char → List Char
  | _, [] => []
  | 0, l => l
  | fuel + 1, x :: xs =>
    if x = openC then
      match seekClose closeC xs with
      | some rest => removeDelim openC closeC fuel rest
      | none => x :: removeDelim openC closeC fuel xs
    else x :: removeDelim openC closeC fuel xs

/-- `text.replace(/\[.*?\]/g, '')` (resp. parentheses): driver with enough fuel. -/
def removeDelimAll (openC closeC : Char) (l : List Char) : List Char :=
  removeDelim openC closeC l.length l

/-! ### `text.replace(/â™ª/g, '')` — the three-character artifact -/

/-- First character of the artifact sequence (U+00E2). -/
def art1 : Char := Char.ofNat 0xE2

/-- Second character of the artifact sequence (U+2122). -/
def art2 : Char := Char.ofNat 0x2122

/-- Third character of the artifact sequence (U+00AA). -/
def art3 : Char := Char.ofNat 0xAA

/-- Global replacement of a fixed three-character literal by the empty string. -/
def removeArtifact : List Char → List Char
  | x :: y :: z :: rest =>
    if x = art1 && y = art2 && z = art3 then removeArtifact rest
    else x :: removeArtifact (y :: z :: rest)
  | l => l

/-! ### `TranscriptService.cleanTranscript` -/

/-- `TranscriptService.cleanTranscript`: collapse whitespace, strip bracketed
then parenthesized annotations, strip the music artifact, trim. -/
def cleanTranscript (s : String) : String :=
  ⟨trimL (removeArtifact (removeDelimAll '(' ')'
      (removeDelimAll '[' ']' (collapseWs s.data))))⟩

/-! ### `validateTranscript` middleware -/

/-- Outcome of the `validateTranscript` middleware: `ok` means `next()` is
called; the other constructors are the three 400 rejections. -/
inductive ValidationOutcome where
  | ok
  | missing
  | tooShort
  | tooLong
deriving DecidableEq

/-- `validateTranscript` middleware for `POST /api/process-transcript` (string
bodies): empty string is falsy and rejected; then the trimmed length must be
at least 100; then the raw length at most 50,000. -/
def validateTranscript (t : String) : ValidationOutcome :=
  if t = "" then .missing
  else if (jsTrim t).length < 100 then .tooShort
  else if t.length > 50000 then .tooLong
  else .ok

/-! ### `AIService.truncateTranscript` -/

/-- The elision marker inserted between the retained prefix and suffix. -/
def elisionMarker : String :=
  "\n\n[... middle section omitted for brevity ...]\n\n"

/-- `AIService.truncateTranscript`: a transcript within the budget is returned
unchanged; a longer one is replaced by its first and last `⌊maxChars/2⌋`
characters joined by the elision marker. -/
def truncateTranscript (t : String) (maxChars : Nat) : String :=
  if t.length ≤ maxChars then t
  else
    let halfMax := maxChars / 2
    ⟨t.data.take halfMax⟩ ++ elisionMarker ++ ⟨t.data.drop (t.length - halfMax)⟩

/-! ### `extractVideoId` -/

/-- The regex class `[a-zA-Z0-9_-]`. -/
def idChar (c : Char) : Bool :=
  c.isAlpha || c.isDigit || c = '_' || c = '-'

/-- Match a literal pattern at the head of the list, returning the remainder. -/
def stripLit : List Char → List Char → Option (List Char)
  | [], l => some l
  | _ :: _, [] => none
  | p :: ps, c :: cs => if c = p then stripLit ps cs else none

/-- After a recognized URL marker, the regex `([a-zA-Z0-9_-]{11})` requires
eleven consecutive identifier characters. -/
def grab11 (l : List Char) : Option (List Char) :=
  let t := l.take 11
  if t.length = 11 && t.all idChar then some t else none

/-- First URL-shape alternative: `youtube.com/watch?v=`. -/
def watchMarker : List Char :=
  'y' :: 'o' :: 'u' :: 't' :: 'u' :: 'b' :: 'e' :: '.' :: 'c' :: 'o' :: 'm' :: '/' :: 'w' :: 'a' :: 't' :: 'c' :: 'h' :: '?' :: 'v' :: '=' ::[]

/-- Second URL-shape alternative: `youtu.be/`. -/
def shortMarker : List Char :=
  'y' :: 'o' :: 'u' :: 't' :: 'u' :: '.' :: 'b' :: 'e' :: '/' ::[]

/-- Third URL-shape alternative: `youtube.com/embed/`. -/
def embedMarker : List Char :=
  'y' :: 'o' :: 'u' :: 't' :: 'u' :: 'b' :: 'e' :: '.' :: 'c' :: 'o' :: 'm' :: '/' :: 'e' :: 'm' :: 'b' :: 'e' :: 'd' :: '/' ::[]

/-- Try the alternation at one position: a marker must match literally and be
followed by eleven identifier characters (the alternatives are mutually
exclusive at any one position, so order does not matter). -/
def tryMarkersHere (l : List Char) : Option (List Char) :=
  match (stripLit watchMarker l).bind grab11 with
  | some v => some v
  | none =>
    match (stripLit shortMarker l).bind grab11 with
    | some v => some v
    | none => (stripLit embedMarker l).bind grab11

/-- Left-to-right scan of
`/(?:youtube\.com\/watch\?v=|youtu\.be\/|youtube\.com\/embed\/)([a-zA-Z0-9_-]{11})/`:
on failure at a position the engine advances one character. -/
def scanMarkers : List Char → Option (List Char)
  | [] => none
  | c :: cs =>
    match tryMarkersHere (c :: cs) with
    | some vid => some vid
    | none => scanMarkers cs

/-- `extractVideoId`: first the marker pattern anywhere in the string, then the
anchored pattern `/^([a-zA-Z0-9_-]{11})$/`; `null` when neither matches. -/
def extractVideoId (url : String) : Option String :=
  match scanMarkers url.data with
  | some vid => some ⟨vid⟩
  | none =>
    if url.data.length = 11 && url.data.all idChar then some url else none

/-! ### JSON values and `JSON.parse` -/

/-- JSON values as produced by `JSON.parse`.  Number literals are kept as
their lexeme (no claim compares numbers across distinct lexemes); objects
keep their members in source order, with lookup taking the last binding as
`JSON.parse` does. -/
inductive Json where
  | null
  | bool (b : Bool)
  | num (lexeme : String)
  | str (s : String)
  | arr (elems : List Json)
  | obj (members : List (String × Json))

/-- Whitespace accepted between JSON tokens (RFC 8259). -/
def jsonWs (c : Char) : Bool :=
  c = ' ' || c = '\t' || c = '\n' || c = '\r'

/-- Skip inter-token whitespace. -/
def skipJWs (l : List Char) : List Char :=
  l.dropWhile jsonWs

/-- Value of one hexadecimal digit, by code point (0-9, a-f, A-F). -/
def hexVal (c : Char) : Option Nat :=
  let n := c.toNat
  if 48 ≤ n && n ≤ 57 then some (n - 48)
  else if 97 ≤ n && n ≤ 102 then some (n - 87)
  else if 65 ≤ n && n ≤ 70 then some (n - 55)
  else none

/-- The table of JSON single-character string escapes. -/
def escTable : List (Char × Char) :=
  [('"', '"'), ('\\', '\\'), ('/', '/'), ('b', Char.ofNat 8), ('f', Char.ofNat 12),
   ('n', '\n'), ('r', '\r'), ('t', '\t')]

/-- Single-character string escapes of JSON. -/
def escChar (c : Char) : Option Char :=
  (escTable.find? fun p => p.1 == c).map fun p => p.2

/-- Parse the body of a JSON string (the opening quote already consumed),
accumulating decoded characters in reverse. -/
def pStrAux : List Char → List Char → Option (String × List Char)
  | acc, [] => none
  | acc, c :: cs =>
    if c = '"' then some (⟨acc.reverse⟩, cs)
    else if c = '\\' then
      match cs with
      | [] => none
      | e :: cs2 =>
        if e = 'u' then
          match cs2 with
          | h1 :: h2 :: h3 :: h4 :: cs3 =>
            match hexVal h1, hexVal h2, hexVal h3, hexVal h4 with
            | some a, some b, some c2, some d =>
              pStrAux (Char.ofNat (((a * 16 + b) * 16 + c2) * 16 + d) :: acc) cs3
            | _, _, _, _ => none
          | _ => none
        else
          match escChar e with
          | some ec => pStrAux (ec :: acc) cs2
          | none => none
    else if c.toNat < 0x20 then none
    else pStrAux (c :: acc) cs

/-- Parse a JSON number lexeme: optional minus, integer part with no leading
zero, optional fraction, optional exponent. -/
def pNum (l : List Char) : Option (String × List Char) :=
  let (sign, l1) := match l with
    | '-' :: rest => (['-'], rest)
    | _ => (([] : List Char), l)
  let ip := l1.takeWhile Char.isDigit
  let r1 := l1.dropWhile Char.isDigit
  if ip.isEmpty then none
  else if 1 < ip.length && ip.head? = some '0' then none
  else
    let (frac, r2) := match r1 with
      | '.' :: r1' =>
        let fd := r1'.takeWhile Char.isDigit
        if fd.isEmpty then (none, r1)
        else (some ('.' :: fd), r1'.dropWhile Char.isDigit)
      | _ => (none, r1)
    match frac, r1 with
    | none, '.' :: _ => none
    | _, _ =>
      let (ex, r3) := match r2 with
        | e :: rest =>
          if e = 'e' || e = 'E' then
            let (es, rest2) := match rest with
              | s :: rest' => if s = '+' || s = '-' then ([s], rest') else (([] : List Char), rest)
              | [] => ([], rest)
            let ed := rest2.takeWhile Char.isDigit
            if ed.isEmpty then (none, r2)
            else (some (e :: (es ++ ed)), rest2.dropWhile Char.isDigit)
          else (none, r2)
        | [] => (none, r2)
      match ex, r2 with
      | none, e :: _ =>
        if e = 'e' || e = 'E' then none
        else some (⟨sign ++ ip ++ frac.getD [] ++ ex.getD []⟩, r3)
      | _, _ => some (⟨sign ++ ip ++ frac.getD [] ++ ex.getD []⟩, r3)

mutual

/-- Parse one JSON value, fuel-bounded (any fuel above three times the input
length is enough; exhaustion only rejects). -/
def pVal : Nat → List Char → Option (Json × List Char)
  | 0, _ => none
  | fuel + 1, l =>
    match skipJWs l with
    | [] => none
    | c :: cs =>
      if c = '"' then (pStrAux [] cs).map fun (s, r) => (.str s, r)
      else if c = Char.ofNat 123 then
        match skipJWs cs with
        | d :: ds => if d = Char.ofNat 125 then some (.obj [], ds) else pMembers fuel (skipJWs cs) []
        | [] => none
      else if c = '[' then
        match skipJWs cs with
        | d :: ds => if d = ']' then some (.arr [], ds) else pItems fuel (skipJWs cs) []
        | [] => none
      else
        match stripLit ('n' :: 'u' :: 'l' :: 'l' ::[]) (c :: cs) with
        | some r => some (.null, r)
        | none =>
          match stripLit ('t' :: 'r' :: 'u' :: 'e' ::[]) (c :: cs) with
          | some r => some (.bool true, r)
          | none =>
            match stripLit ('f' :: 'a' :: 'l' :: 's' :: 'e' ::[]) (c :: cs) with
            | some r => some (.bool false, r)
            | none => (pNum (c :: cs)).map fun (s, r) => (.num s, r)

/-- Parse the elements of a non-empty JSON array, after the opening bracket. -/
def pItems : Nat → List Char → List Json → Option (Json × List Char)
  | 0, _, _ => none
  | fuel + 1, l, acc =>
    match pVal fuel l with
    | none => none
    | some (v, r) =>
      match skipJWs r with
      | ',' :: r2 => pItems fuel r2 (acc ++ [v])
      | ']' :: r2 => some (.arr (acc ++ [v]), r2)
      | _ => none

/-- Parse the members of a non-empty JSON object, after the opening brace. -/
def pMembers : Nat → List Char → List (String × Json) → Option (Json × List Char)
  | 0, _, _ => none
  | fuel + 1, l, acc =>
    match skipJWs l with
    | '"' :: cs =>
      match pStrAux [] cs with
      | none => none
      | some (k, r) =>
        match skipJWs r with
        | ':' :: r2 =>
          match pVal fuel r2 with
          | none => none
          | some (v, r3) =>
            match skipJWs r3 with
            | ',' :: r4 => pMembers fuel r4 (acc ++ [(k, v)])
            | d :: r4 => if d = Char.ofNat 125 then some (.obj (acc ++ [(k, v)]), r4) else none
            | [] => none
        | _ => none
    | _ => none

end

/-- `JSON.parse`: parse one value, allow surrounding whitespace, require the
whole input to be consumed; `none` models a thrown `SyntaxError`. -/
def parseJson (s : String) : Option Json :=
  match pVal (3 * s.length + 10) s.data with
  | some (v, rest) => if skipJWs rest = [] then some v else none
  | none => none

/-! ### `AIService.extractJSON` — the fallback chain -/

/-- Three backticks, the fence delimiter. -/
def backtick3 : List Char := List.replicate 3 (Char.ofNat 96)

/-- The tagged fence opener of the first fence regex. -/
def fenceJsonMarker : List Char := backtick3 ++ ('j' :: 's' :: 'o' :: 'n' ::[])

/-- The lazy group of `/(marker)\s*([\s\S]*?)\s*(fence)/` stops at the first
closing fence; returns the characters strictly before it. -/
def grabUntilTicks : List Char → Option (List Char)
  | [] => none
  | c :: cs =>
    match stripLit backtick3 (c :: cs) with
    | some _ => some []
    | none => (grabUntilTicks cs).map (c :: ·)

/-- Leftmost match of a fenced block: scan for the opener; a position where
the opener matches but no closing fence follows is skipped, as the regex
engine advances one character. -/
def fenceSearch (marker : List Char) : List Char → Option (List Char)
  | [] => none
  | c :: cs =>
    match (stripLit marker (c :: cs)).bind grabUntilTicks with
    | some between => some between
    | none => fenceSearch marker cs

/-- `content.match(/\x60\x60\x60json\s*([\s\S]*?)\s*\x60\x60\x60/) ||
content.match(/\x60\x60\x60\s*([\s\S]*?)\s*\x60\x60\x60/)`: the captured
group is the fenced text with surrounding whitespace stripped by the
greedy-lazy-greedy split. -/
def fenceMatch (content : String) : Option String :=
  match fenceSearch fenceJsonMarker content.data with
  | some between => some ⟨trimL between⟩
  | none => (fenceSearch backtick3 content.data).map fun between => ⟨trimL between⟩

/-- Index of the first occurrence of a character. -/
def firstIdx (c : Char) (l : List Char) : Option Nat :=
  l.findIdx? (· = c)

/-- Index of the last occurrence of a character. -/
def lastIdx (c : Char) (l : List Char) : Option Nat :=
  (l.reverse.findIdx? (· = c)).map fun k => l.length - 1 - k

/-- The greedy regex `/\[[\s\S]*\]/` (resp. braces): it matches the span from
the first opening character to the last closing character when that span is
non-degenerate, and nothing otherwise. -/
def spanGreedy (openC closeC : Char) (l : List Char) : Option (List Char) :=
  match firstIdx openC l, lastIdx closeC l with
  | some i, some j => if i < j then some ((l.drop i).take (j - i + 1)) else none
  | _, _ => none

/-- `AIService.extractJSON`: direct parse, then fenced block, then greedy
array span, then greedy object span.  A fallback whose pattern matches
commits: `JSON.parse` of the extracted text throws out of the `catch` block
on failure, so no later strategy is consulted. -/
def extractJSON (content : String) : Except String Json :=
  match parseJson content with
  | some v => .ok v
  | none =>
    match fenceMatch content with
    | some inner =>
      match parseJson inner with
      | some v => .ok v
      | none => .error "SyntaxError"
    | none =>
      match spanGreedy '[' ']' content.data with
      | some sub =>
        match parseJson ⟨sub⟩ with
        | some v => .ok v
        | none => .error "SyntaxError"
      | none =>
        match spanGreedy (Char.ofNat 123) (Char.ofNat 125) content.data with
        | some sub =>
          match parseJson ⟨sub⟩ with
          | some v => .ok v
          | none => .error "SyntaxError"
        | none => .error "Could not extract JSON from response"

/-! ### JavaScript value semantics used by the quiz normalizer -/

/-- JS truthiness of a parsed JSON value (objects and arrays are truthy; the
empty string, `0`, `false` and `null` are falsy). -/
def jsTruthy : Json → Bool
  | .null => false
  | .bool b => b
  | .num lex => (lex.data.takeWhile fun c => c != 'e' && c != 'E').any fun c => c.isDigit && c != '0'
  | .str s => s != ""
  | .arr _ => true
  | .obj _ => true

/-- Property lookup on object members; `JSON.parse` keeps the last duplicate
key, so lookup takes the last binding. -/
def jlookup (members : List (String × Json)) (k : String) : Option Json :=
  (members.reverse.find? fun p => p.1 == k).map (·.2)

/-- JS property access `q.k` for parsed JSON values: a defined property only
on objects; on primitives it is `undefined` (`none`).  Access on `null`
throws and is handled at the call site. -/
def jget : Json → String → Option Json
  | .obj ms, k => jlookup ms k
  | _, _ => none

/-- The JS idiom `v || d`: keep `v` when truthy, else the default. -/
def jsOr (v : Option Json) (d : Json) : Json :=
  match v with
  | some x => if jsTruthy x then x else d
  | none => d

/-! ### Quiz normalization (`AIService.generateQuiz`) -/

/-- One normalized quiz entry; field values stay JS values, since the code
copies whatever the model supplied when it is truthy. -/
structure QuizQuestion where
  id : Nat
  question : Json
  options : Json
  correctAnswer : Json
  explanation : Json

/-- The generic placeholder options used when the model's options are not a
4-element array. -/
def defaultOptions : Json :=
  .arr [.str "Option A", .str "Option B", .str "Option C", .str "Option D"]

/-- The body of `quiz.map((q, index) => ...)`: property access on a `null`
element throws a `TypeError`; otherwise missing or falsy fields are replaced
by placeholders, and options must be an array of exactly 4. -/
def normalizeQuestion (index : Nat) (q : Json) : Except String QuizQuestion :=
  match q with
  | .null => .error "TypeError: cannot read properties of null"
  | _ => .ok {
      id := index + 1
      question := jsOr (jget q "question") (.str ("Question " ++ toString (index + 1)))
      options :=
        match jget q "options" with
        | some (.arr l) => if l.length = 4 then .arr l else defaultOptions
        | _ => defaultOptions
      correctAnswer := jsOr (jget q "correctAnswer") (.str "A")
      explanation := jsOr (jget q "explanation") (.str "Explanation based on transcript content") }

/-- Index-carrying map over the sliced quiz array. -/
def normalizeList : Nat → List Json → Except String (List QuizQuestion)
  | _, [] => .ok []
  | i, q :: qs =>
    match normalizeQuestion i q with
    | .error e => .error e
    | .ok nq =>
      match normalizeList (i + 1) qs with
      | .error e => .error e
      | .ok rest => .ok (nq :: rest)

/-- The synthetic placeholder question pushed while fewer than 10 entries. -/
def placeholderQuestion (n : Nat) : QuizQuestion :=
  { id := n
    question := .str "What is the main topic discussed?"
    options := .arr [.str "Topic A", .str "Topic B", .str "Topic C", .str "Topic D"]
    correctAnswer := .str "A"
    explanation := .str "Based on transcript analysis" }

/-- `while (quiz.length < 10) quiz.push(placeholder)`, fuel-bounded (10 is
enough since the array was already sliced to at most 10). -/
def padQuiz : Nat → List QuizQuestion → List QuizQuestion
  | 0, l => l
  | fuel + 1, l =>
    if l.length < 10 then padQuiz fuel (l ++ [placeholderQuestion (l.length + 1)]) else l

/-! ### Prompts of the AI generation client -/

/-- Prompt of `generateSummary`. -/
def summaryPrompt (transcript : String) : String :=
  "You are an expert educational content summarizer.\n\nTRANSCRIPT:\n" ++ transcript ++
  "\n\nTASK:\nCreate a concise, exam-oriented summary of this educational content.\n\nREQUIREMENTS:\n- Write 2-3 clear paragraphs\n- Use simple, student-friendly language\n- Focus on main concepts and key takeaways\n- Make it suitable for quick revision\n- Stay factual - only use information from the transcript\n- No external information or assumptions\n\nOUTPUT FORMAT:\nPlain text summary, well-structured paragraphs."

/-- Prompt of `generateKeyPoints`. -/
def keyPointsPrompt (transcript : String) : String :=
  "You are an expert at extracting key learning points from educational content.\n\nTRANSCRIPT:\n" ++ transcript ++
  "\n\nTASK:\nExtract 6-10 key learning points from this content.\n\nREQUIREMENTS:\n- Each point should be clear and concise (1-2 sentences max)\n- Focus on important concepts, facts, and takeaways\n- Make them exam-friendly and revision-ready\n- Use bullet-point style\n- Only include information from the transcript\n- Ensure points are distinct (no repetition)\n\nOUTPUT FORMAT:\nReturn ONLY the bullet points, one per line, without numbers or extra formatting.\nExample:\n- Point one here\n- Point two here\n- Point three here"

/-- Prompt of `generateQuiz`. -/
def quizPrompt (transcript : String) : String :=
  "You are an expert exam question creator for educational content.\n\nTRANSCRIPT:\n" ++ transcript ++
  "\n\nTASK:\nCreate EXACTLY 10 multiple-choice quiz questions based STRICTLY on the transcript content.\n\nCRITICAL REQUIREMENTS:\n- Generate EXACTLY 10 questions (no more, no less)\n- Base ALL questions on facts from the transcript only\n- Each question must have 4 options (A, B, C, D)\n- Only ONE correct answer per question\n- Include a brief explanation for the correct answer\n- Questions should test understanding, not just memorization\n- Progressive difficulty (start easy, get harder)\n- No repetitive questions\n\nOUTPUT FORMAT (STRICT JSON):\nReturn a valid JSON array with EXACTLY this structure:\n\n[\n  \x7b\n    \"question\": \"Question text here?\",\n    \"options\": [\"Option A\", \"Option B\", \"Option C\", \"Option D\"],\n    \"correctAnswer\": \"A\",\n    \"explanation\": \"Brief explanation why this is correct\"\n  \x7d\n]\n\nIMPORTANT: Return ONLY the JSON array, no other text."

/-- Prompt of `extractTitle` (over the first 500 characters). -/
def titlePrompt (snippet : String) : String :=
  "Create a clear, concise title (5-8 words) for this educational content:\n\n" ++ snippet ++
  "\n\nReturn only the title, nothing else."

/-! ### The AI generation client (`AIService`), over a model oracle

The network call `this.model.generateContent(prompt)` is abstracted as an
oracle `gen : String → Except String String` mapping a prompt to the model's
response text or a thrown error; everything after the call is translated
from the source. -/

/-- `AIService.generateSummary`: the response text, trimmed. -/
def generateSummary (transcript : String) (gen : String → Except String String) :
    Except String String :=
  match gen (summaryPrompt transcript) with
  | .error e => .error e
  | .ok t => .ok (jsTrim t)

/-- `line.trim().startsWith('-') || line.trim().startsWith('•')`. -/
def startsBullet (s : String) : Bool :=
  match s.data with
  | c :: _ => c = '-' || c = Char.ofNat 0x2022
  | [] => false

/-- `line.replace(/^[-•]\s*/, '')`: anchored, so only a leading bullet (with
its trailing whitespace) is removed. -/
def stripBullet (line : String) : String :=
  match line.data with
  | c :: rest =>
    if c = '-' || c = Char.ofNat 0x2022 then ⟨rest.dropWhile isJsWs⟩ else line
  | [] => line

/-- JS `content.split(sep)` for a single-character separator. -/
def splitOnChar (sep : Char) : List Char → List (List Char)
  | [] => [[]]
  | c :: cs =>
    match splitOnChar sep cs with
    | [] => [[]]
    | cur :: rest => if c = sep then [] :: cur :: rest else (c :: cur) :: rest

/-- The key-point parsing of `generateKeyPoints`: split on newlines, keep
bullet lines, strip a leading bullet marker, trim, drop empties, cap at 10. -/
def parseKeyPoints (content : String) : List String :=
  (((((splitOnChar '\n' content.data).map String.mk).filter
        fun line => startsBullet (jsTrim line)).map
      fun line => jsTrim (stripBullet line)).filter fun p => p.length > 0).take 10

/-- `AIService.generateKeyPoints`. -/
def generateKeyPoints (transcript : String) (gen : String → Except String String) :
    Except String (List String) :=
  match gen (keyPointsPrompt transcript) with
  | .error e => .error e
  | .ok t => .ok (parseKeyPoints (jsTrim t))

/-- `AIService.generateQuiz`: trim the response, extract JSON, require an
array, slice to 10, normalize each entry, pad with placeholders to 10. -/
def generateQuiz (transcript : String) (gen : String → Except String String) :
    Except String (List QuizQuestion) :=
  match gen (quizPrompt transcript) with
  | .error e => .error e
  | .ok raw =>
    match extractJSON (jsTrim raw) with
    | .error e => .error e
    | .ok j =>
      match j with
      | .arr elems =>
        match normalizeList 0 (elems.take 10) with
        | .error e => .error e
        | .ok qs => .ok ((padQuiz 10 qs).take 10)
      | _ => .error "Invalid quiz format"

/-- `AIService.extractTitle`: any failure of the generation call is caught and
replaced by the fixed fallback title. -/
def extractTitle (transcript : String) (gen : String → Except String String) : String :=
  match gen (titlePrompt ⟨transcript.data.take 500⟩) with
  | .ok t => jsTrim t
  | .error _ => "Educational Video"

/-- Substring test, used by the error classifier. -/
def hasSub (needle : List Char) : List Char → Bool
  | [] => needle.isEmpty
  | c :: cs => (stripLit needle (c :: cs)).isSome || hasSub needle cs

/-- The error remapping of `processTranscript`'s catch block. -/
def classifyError (m : String) : String :=
  if hasSub "429".data m.data || hasSub "quota".data m.data then
    "API quota exceeded. Please try again later or upgrade your API plan."
  else if hasSub "404".data m.data || hasSub "not found".data m.data then
    "AI model not available. Please check your API configuration."
  else if hasSub "API key".data m.data then
    "Invalid API key. Please check your configuration."
  else "Failed to generate learning materials: " ++ m

/-- The learning bundle returned by `AIService.processTranscript`. -/
structure LearningBundle where
  title : String
  summary : String
  keyPoints : List String
  quiz : List QuizQuestion

/-- `AIService.processTranscript`: truncate to the 12,000-character budget,
run the three generators (`Promise.all` rejects with the first failure,
modelled positionally), then attach the title; generator failures are
remapped by the catch block. -/
def processTranscriptAI (transcript : String) (gen : String → Except String String) :
    Except String LearningBundle :=
  let pt := truncateTranscript transcript 12000
  match generateSummary pt gen with
  | .error e => .error (classifyError e)
  | .ok summary =>
    match generateKeyPoints pt gen with
    | .error e => .error (classifyError e)
    | .ok keyPoints =>
      match generateQuiz pt gen with
      | .error e => .error (classifyError e)
      | .ok quiz =>
        .ok { title := extractTitle pt gen, summary := summary,
              keyPoints := keyPoints, quiz := quiz }

/-! ### Result cache and orchestrator -/

/-- Metadata attached to a processed result. -/
structure ResultMetadata where
  transcriptLength : Nat
  processingTime : Nat
  generatedAt : String

/-- The envelope cached and returned by the orchestrator; the transcript path
leaves the video fields absent. -/
structure ResultEnvelope where
  videoId : Option String
  videoUrl : Option String
  title : String
  summary : String
  keyPoints : List String
  quiz : List QuizQuestion
  metadata : ResultMetadata

/-- Modelled from the spec: the underlying expiring key/value store
(the off-the-shelf `node-cache` package, whose source is not part of this
repository).  Each entry carries an expiration instant derived from
insertion time + configured TTL; a get on an expired-but-not-yet-swept key
behaves as a miss, the periodic sweep being advisory only. -/
structure TTLStore where
  entries : List (String × ResultEnvelope × Nat)

/-- Modelled from the spec: `get` of the underlying store returns the live
entry if present and not expired, otherwise misses. -/
def storeGet (st : TTLStore) (key : String) (now : Nat) : Option ResultEnvelope :=
  match st.entries.find? fun e => e.1 == key with
  | some (_, v, exp) => if now < exp then some v else none
  | none => none

/-- Modelled from the spec: `set` inserts or overwrites the key and resets
its TTL window to `now + ttl`. -/
def storeSet (st : TTLStore) (key : String) (v : ResultEnvelope) (now ttl : Nat) : TTLStore :=
  ⟨(key, v, now + ttl) :: st.entries.filter fun e => e.1 != key⟩

/-- `CacheManager.get`: the wrapper forwards the underlying lookup, mapping a
miss to `null`; `if (data)` is always taken on a hit because cached
envelopes are JS objects, which are truthy. -/
def cacheGet (st : TTLStore) (key : String) (now : Nat) : Option ResultEnvelope :=
  storeGet st key now

/-- `CacheManager.set`: forwards to the underlying store and reports success. -/
def cacheSet (st : TTLStore) (key : String) (v : ResultEnvelope) (now ttl : Nat) :
    TTLStore × Bool :=
  (storeSet st key v now ttl, true)

/-- The observable outcome of one `processVideo` request: a JSON success
response with its `cached` flag, one of the explicit 4xx responses, or
forwarding the error to the express error handler via `next(error)`. -/
inductive ProcResponse where
  | success (data : ResultEnvelope) (cached : Bool)
  | badRequest (msg : String)
  | notFound (msg : String)
  | forwarded (err : String)

/-- `processVideo` controller: extract the video id, consult the cache,
otherwise fetch the transcript (oracle `fetch`), reject empty transcripts,
invoke the AI client (oracle `ai`, with invocations counted), assemble the
envelope, cache it and respond with `cached: false`.  Returns the response,
the cache state after the request and the number of AI client invocations. -/
def processVideo (videoUrl : String) (st : TTLStore) (now ttl : Nat)
    (fetch : String → Except String String) (ai : String → Except String LearningBundle)
    (duration : Nat) (timestamp : String) : ProcResponse × TTLStore × Nat :=
  match extractVideoId videoUrl with
  | none => (.badRequest "Invalid YouTube URL. Please provide a valid video URL.", st, 0)
  | some videoId =>
    match cacheGet st videoId now with
    | some cachedResult => (.success cachedResult true, st, 0)
    | none =>
      match fetch videoId with
      | .error e => (.forwarded e, st, 0)
      | .ok transcript =>
        if transcript = "" then
          (.notFound "No transcript available for this video. Please try a video with captions/subtitles enabled.", st, 0)
        else
          match ai transcript with
          | .error e => (.forwarded e, st, 1)
          | .ok aiResult =>
            let result : ResultEnvelope :=
              { videoId := some videoId
                videoUrl := some videoUrl
                title := if aiResult.title = "" then "Educational Video" else aiResult.title
                summary := aiResult.summary
                keyPoints := aiResult.keyPoints
                quiz := aiResult.quiz
                metadata := ⟨transcript.length, duration, timestamp⟩ }
            (.success result false, (cacheSet st videoId result now ttl).1, 1)

/-! ### Normal forms for the cleaning pipeline (C1, C2) -/

/-- What normalization guarantees per entry: options are an array of exactly
four, and the correct-answer label is truthy (the model's own label when
truthy, the default `"A"` otherwise — membership in `{A,B,C,D}` is *not*
enforced, see the C1 counterexample). -/
def wellFormedQuestion (q : QuizQuestion) : Prop :=
  (∃ opts, q.options = Json.arr opts ∧ opts.length = 4) ∧ jsTruthy q.correctAnswer = true

/-- The head of the list, if any, is not JS whitespace. -/
def headNotWs : List Char → Bool
  | [] => true
  | c :: _ => !isJsWs c

/-- Every whitespace character in the list is a plain space. -/
def allWsSpace (l : List Char) : Bool :=
  l.all fun c => !isJsWs c || c == ' '

/-- No two adjacent characters are both whitespace. -/
def noAdjWs : List Char → Bool
  | c :: d :: rest => !(isJsWs c && isJsWs d) && noAdjWs (d :: rest)
  | _ => true

/-! ### Concrete inputs used by individual claims -/

/-- A transcript is annotation-free when it contains no opening bracket, no
opening parenthesis and no first byte of the music artifact. -/
def annotationFree (s : String) : Bool :=
  s.data.all fun c => c != '[' && c != '(' && c != art1

/-- A model oracle returning a syntactically valid quiz whose single entry
carries the out-of-range correct-answer label `"E"`. -/
def c1Gen : String → Except String String := fun _ =>
  .ok "[\x7b\"question\":\"Q\",\"options\":[\"a\",\"b\",\"c\",\"d\"],\"correctAnswer\":\"E\",\"explanation\":\"x\"\x7d]"

/-- A model oracle whose every response is the empty JSON array. -/
def emptyArrayGen : String → Except String String := fun _ => .ok "[]"

/-- A model response holding a fenced block with unparseable content followed
by a parseable array substring. -/
def c4Content : String := "x \x60\x60\x60 nope \x60\x60\x60 [1]"

/-- A concrete cached envelope (fingerprint `abc123`). -/
def c6Env : ResultEnvelope :=
  { videoId := some "abc123", videoUrl := some "https://youtu.be/abc123xyz00"
    title := "T", summary := "S", keyPoints := ["k"], quiz := []
    metadata := ⟨120, 5, "2026-01-01T00:00:00.000Z"⟩ }

/-- A concrete envelope for the orchestrator witness. -/
def c7Env : ResultEnvelope :=
  { videoId := some "dQw4w9WgXcQ", videoUrl := some "dQw4w9WgXcQ"
    title := "T", summary := "S", keyPoints := [], quiz := []
    metadata := ⟨100, 0, "ts"⟩ }

/-- A concrete AI bundle for the orchestrator witness. -/
def c7Bundle : LearningBundle := { title := "T", summary := "S", keyPoints := [], quiz := [] }

/-- A model oracle that fails exactly on the title prompt of the transcript
`"tx"` and answers the empty JSON array otherwise. -/
def c10Gen : String → Except String String := fun p =>
  if p = titlePrompt ⟨(truncateTranscript "tx" 12000).data.take 500⟩ then .error "boom"
  else .ok "[]"

/-! ## Theorems -/

/-- C8: `extractVideoId` returns the 11-character identifier `dQw4w9WgXcQ`
for the full watch URL, the short URL and the bare identifier, and `null`
for an unrelated URL matching none of the recognized YouTube shapes. -/
theorem c8_extract_video_id_cases :
    extractVideoId "https://www.youtube.com/watch?v=dQw4w9WgXcQ" = some "dQw4w9WgXcQ"
    ∧ extractVideoId "https://youtu.be/dQw4w9WgXcQ" = some "dQw4w9WgXcQ"
    ∧ extractVideoId "dQw4w9WgXcQ" = some "dQw4w9WgXcQ"
    ∧ extractVideoId "https://example.com/page" = none :=
  ⟨rfl, rfl, rfl, rfl⟩

/-- C2 counterexample: cleaning is not idempotent.  Removing the annotation
`[b]` from the already-collapsed text `a [b] c` leaves the two spaces that
surrounded it, and a second cleaning pass collapses them. -/
theorem c2_clean_not_idempotent :
    cleanTranscript "a [b] c" = "a  c"
    ∧ cleanTranscript (cleanTranscript "a [b] c") = "a c"
    ∧ cleanTranscript (cleanTranscript "a [b] c") ≠ cleanTranscript "a [b] c" :=
  ⟨rfl, rfl, by decide⟩

/-- C3 counterexample: a transcript of exactly 100 characters whose trailing
whitespace makes its trimmed length fall below 100 is rejected, because the
minimum-length check runs on the trimmed string. -/
theorem c3_validate_counterexample :
    (String.mk ('a' :: List.replicate 99 ' ')).length = 100
    ∧ validateTranscript (String.mk ('a' :: List.replicate 99 ' ')) = .tooShort
    ∧ validateTranscript (String.mk ('a' :: List.replicate 99 ' ')) ≠ .ok :=
  ⟨by decide, by decide, by decide⟩

/-- C4 counterexample: on this response the fenced-block fallback matches but
its content `nope` is unparseable, so `extractJSON` raises — even though the
third strategy (the array substring `[1]`) is present and parseable.  The
extraction therefore does not fail "only if all three strategies fail". -/
theorem c4_extract_counterexample :
    extractJSON c4Content = .error "SyntaxError"
    ∧ fenceMatch c4Content = some "nope"
    ∧ spanGreedy '[' ']' c4Content.data = some ('[' :: '1' :: ']' ::[])
    ∧ parseJson ⟨'[' :: '1' :: ']' ::[]⟩ = some (.arr [.num "1"]) :=
  ⟨rfl, rfl, rfl, rfl⟩

/-- C1 counterexample: the model output supplies the truthy correct-answer
label `"E"`; the normalizer keeps it unchanged, so the quiz returned by
`processTranscript` can carry a correct-answer label outside `{A,B,C,D}`
(the quiz still has exactly 10 entries). -/
theorem c1_quiz_label_counterexample :
    ((processTranscriptAI "t" c1Gen).map fun b =>
        (b.quiz.length, (b.quiz.map fun q => q.correctAnswer).take 1))
      = .ok (10, [Json.str "E"])
    ∧ ¬ ("E" = "A" ∨ "E" = "B" ∨ "E" = "C" ∨ "E" = "D") :=
  ⟨rfl, by decide⟩

/-! ### Quiz-normalization lemmas (C1) -/

theorem jsTruthy_jsOr (v : Option Json) (d : Json) (hd : jsTruthy d = true) :
    jsTruthy (jsOr v d) = true := by
  cases v with
  | none => simpa [jsOr] using hd
  | some x =>
    by_cases hx : jsTruthy x
    · simp [jsOr, hx]
    · simp [jsOr, hx, hd]

theorem normalizeQuestion_shape (i : Nat) (q : Json) (nq : QuizQuestion)
    (h : normalizeQuestion i q = .ok nq) : wellFormedQuestion nq := by
  cases q
  case null => simp [normalizeQuestion] at h
  all_goals
    simp only [normalizeQuestion, Except.ok.injEq] at h
    subst h
    unfold wellFormedQuestion
    dsimp only
    refine ⟨?_, jsTruthy_jsOr _ (.str "A") rfl⟩
    split
    · next l _ =>
      split
      · next hl => exact ⟨l, rfl, hl⟩
      · exact ⟨_, rfl, rfl⟩
    · exact ⟨_, rfl, rfl⟩

theorem normalizeList_shape : ∀ (i : Nat) (qs : List Json) (out : List QuizQuestion),
    normalizeList i qs = .ok out → ∀ nq ∈ out, wellFormedQuestion nq := by
  intro i qs
  induction qs generalizing i with
  | nil =>
    intro out h nq hm
    simp only [normalizeList, Except.ok.injEq] at h
    subst h
    simp at hm
  | cons q rest ih =>
    intro out h nq hm
    simp only [normalizeList] at h
    cases hq : normalizeQuestion i q with
    | error e => rw [hq] at h; exact absurd h (by simp)
    | ok nq0 =>
      rw [hq] at h
      cases hr : normalizeList (i + 1) rest with
      | error e => rw [hr] at h; exact absurd h (by simp)
      | ok out0 =>
        rw [hr] at h
        simp only [Except.ok.injEq] at h
        subst h
        rcases List.mem_cons.1 hm with rfl | hmem
        · exact normalizeQuestion_shape i q nq hq
        · exact ih (i + 1) out0 hr nq hmem

theorem placeholderQuestion_shape (n : Nat) :
    wellFormedQuestion (placeholderQuestion n) :=
  ⟨⟨_, rfl, rfl⟩, rfl⟩

theorem padQuiz_mem : ∀ (fuel : Nat) (l : List QuizQuestion) (q : QuizQuestion),
    q ∈ padQuiz fuel l → q ∈ l ∨ ∃ n, q = placeholderQuestion n := by
  intro fuel
  induction fuel with
  | zero => intro l q h; exact Or.inl (by simpa [padQuiz] using h)
  | succ fuel ih =>
    intro l q h
    simp only [padQuiz] at h
    split at h
    · rcases ih _ q h with hin | hph
      · rcases List.mem_append.1 hin with hl | hr
        · exact Or.inl hl
        · exact Or.inr ⟨l.length + 1, by simpa using hr⟩
      · exact Or.inr hph
    · exact Or.inl h

theorem padQuiz_length : ∀ (fuel : Nat) (l : List QuizQuestion),
    10 ≤ l.length + fuel → 10 ≤ (padQuiz fuel l).length := by
  intro fuel
  induction fuel with
  | zero => intro l h; simpa [padQuiz] using h
  | succ fuel ih =>
    intro l h
    simp only [padQuiz]
    split
    · exact ih (l ++ [placeholderQuestion (l.length + 1)]) (by simp; omega)
    · omega

theorem generateQuiz_shape (t : String) (gen : String → Except String String)
    (qs : List QuizQuestion) (h : generateQuiz t gen = .ok qs) :
    qs.length = 10 ∧ ∀ q ∈ qs, wellFormedQuestion q := by
  simp only [generateQuiz] at h
  cases hg : gen (quizPrompt t) with
  | error e => rw [hg] at h; exact absurd h (by simp)
  | ok raw =>
    rw [hg] at h
    simp only [] at h
    cases he : extractJSON (jsTrim raw) with
    | error e => rw [he] at h; exact absurd h (by simp)
    | ok j =>
      rw [he] at h
      simp only [] at h
      cases j
      case arr elems =>
        simp only [] at h
        cases hn : normalizeList 0 (elems.take 10) with
        | error e => rw [hn] at h; exact absurd h (by simp)
        | ok qs0 =>
          rw [hn] at h
          simp only [Except.ok.injEq] at h
          subst h
          have hlen : 10 ≤ (padQuiz 10 qs0).length := padQuiz_length 10 qs0 (by omega)
          constructor
          · simp [List.length_take]; omega
          · intro q hq
            have hq' : q ∈ padQuiz 10 qs0 := List.mem_of_mem_take hq
            rcases padQuiz_mem 10 qs0 q hq' with hin | ⟨n, rfl⟩
            · exact normalizeList_shape 0 (elems.take 10) qs0 hn q hin
            · exact placeholderQuestion_shape n
      all_goals exact absurd h (by simp)

/-- C1 (amended): for every model output, the quiz field returned by
`processTranscript` has exactly 10 entries, each with exactly 4 options and
a truthy correct-answer label; the label defaults to `"A"` only when the
model's label is missing or falsy, and is otherwise passed through without
being validated against `{A,B,C,D}`. -/
theorem c1_quiz_normalization_amended (transcript : String)
    (gen : String → Except String String) (b : LearningBundle)
    (h : processTranscriptAI transcript gen = .ok b) :
    b.quiz.length = 10 ∧ ∀ q ∈ b.quiz, wellFormedQuestion q := by
  simp only [processTranscriptAI] at h
  cases hs : generateSummary (truncateTranscript transcript 12000) gen with
  | error e => rw [hs] at h; exact absurd h (by simp)
  | ok s =>
    rw [hs] at h
    simp only [] at h
    cases hk : generateKeyPoints (truncateTranscript transcript 12000) gen with
    | error e => rw [hk] at h; exact absurd h (by simp)
    | ok kp =>
      rw [hk] at h
      simp only [] at h
      cases hq : generateQuiz (truncateTranscript transcript 12000) gen with
      | error e => rw [hq] at h; exact absurd h (by simp)
      | ok qs =>
        rw [hq] at h
        simp only [Except.ok.injEq] at h
        obtain ⟨rfl⟩ := h
        exact generateQuiz_shape _ gen qs hq

/-- C1 witness: a run of the pipeline on a concrete oracle, with the quiz
shape facts obtained from the amended theorem. -/
theorem c1_quiz_normalization_witness :
    processTranscriptAI "t" emptyArrayGen
        = .ok ⟨"[]", "[]", [], (padQuiz 10 []).take 10⟩
    ∧ ((padQuiz 10 []).take 10).length = 10 :=
  ⟨rfl, (c1_quiz_normalization_amended "t" emptyArrayGen
      ⟨"[]", "[]", [], (padQuiz 10 []).take 10⟩ rfl).1⟩

/-! ### Truncation (C5) -/

theorem data_append (s u : String) : (s ++ u).data = s.data ++ u.data := rfl

/-- C5: a transcript within the character budget is returned unchanged; a
longer one becomes a prefix and a suffix of the original of equal size
(`⌊maxChars/2⌋` each) with the explicit elision marker between them — the
middle is never dropped silently. -/
theorem c5_truncate (t : String) (maxChars : Nat) :
    (t.length ≤ maxChars → truncateTranscript t maxChars = t)
    ∧ (maxChars < t.length → ∃ pre mid suf : List Char,
        t.data = pre ++ mid ++ suf
        ∧ (truncateTranscript t maxChars).data = pre ++ elisionMarker.data ++ suf
        ∧ pre.length = suf.length ∧ pre.length = maxChars / 2) := by
  constructor
  · intro h
    simp [truncateTranscript, h]
  · intro h
    have hlen : t.length = t.data.length := rfl
    have hnot : ¬ t.length ≤ maxChars := not_le.2 h
    have hm2 : maxChars / 2 ≤ maxChars := Nat.div_le_self maxChars 2
    have hmlen : maxChars / 2 ≤ t.data.length := by omega
    have hhalf : maxChars / 2 ≤ t.data.length - maxChars / 2 := by omega
    refine ⟨t.data.take (maxChars / 2),
        (t.data.take (t.data.length - maxChars / 2)).drop (maxChars / 2),
        t.data.drop (t.data.length - maxChars / 2), ?_, ?_, ?_, ?_⟩
    · have h1 : t.data.take (maxChars / 2)
          ++ (t.data.take (t.data.length - maxChars / 2)).drop (maxChars / 2)
          = t.data.take (t.data.length - maxChars / 2) := by
        have h2 : t.data.take (maxChars / 2)
            = (t.data.take (t.data.length - maxChars / 2)).take (maxChars / 2) := by
          rw [List.take_take, min_eq_left hhalf]
        rw [h2, List.take_append_drop]
      rw [h1, List.take_append_drop]
    · simp only [truncateTranscript, if_neg hnot]
      rw [data_append, data_append]
      rfl
    · rw [List.length_take, List.length_drop, min_eq_left hmlen]
      omega
    · rw [List.length_take, min_eq_left hmlen]

/-- C5 witness: both branches of the theorem at concrete inputs. -/
theorem c5_truncate_witness :
    truncateTranscript "short" 12000 = "short"
    ∧ ∃ pre mid suf : List Char,
        "abcdefghij".data = pre ++ mid ++ suf
        ∧ (truncateTranscript "abcdefghij" 4).data = pre ++ elisionMarker.data ++ suf
        ∧ pre.length = suf.length ∧ pre.length = 4 / 2 :=
  ⟨(c5_truncate "short" 12000).1 (by decide),
   (c5_truncate "abcdefghij" 4).2 (by decide)⟩

/-! ### Result cache (C6) -/

/-- C6: a `set` immediately followed by a `get` on the same fingerprint
within the TTL window returns the identical envelope; a `get` on an absent
key misses, and a `get` on a present-but-expired entry also misses. -/
theorem c6_cache_roundtrip :
    (∀ (st : TTLStore) (k : String) (v : ResultEnvelope) (now ttl t' : Nat),
        t' < now + ttl → cacheGet (cacheSet st k v now ttl).1 k t' = some v)
    ∧ (∀ (st : TTLStore) (k : String) (now : Nat),
        (st.entries.find? fun e => e.1 == k) = none → cacheGet st k now = none)
    ∧ (∀ (st : TTLStore) (k a : String) (v : ResultEnvelope) (exp now : Nat),
        (st.entries.find? fun e => e.1 == k) = some (a, v, exp) → exp ≤ now →
        cacheGet st k now = none) := by
  refine ⟨?_, ?_, ?_⟩
  · intro st k v now ttl t' h
    simp [cacheGet, storeGet, cacheSet, storeSet, List.find?, h]
  · intro st k now h
    simp [cacheGet, storeGet, h]
  · intro st k a v exp now hf hle
    simp [cacheGet, storeGet, hf]
    omega

/-- C6 witness: the three conjuncts at concrete stores (fingerprint
`abc123`, TTL 3600, reads at instants 10 and 5000). -/
theorem c6_cache_roundtrip_witness :
    cacheGet (cacheSet ⟨[]⟩ "abc123" c6Env 0 3600).1 "abc123" 10 = some c6Env
    ∧ cacheGet ⟨[]⟩ "abc123" 10 = none
    ∧ cacheGet ⟨[("abc123", c6Env, 3600)]⟩ "abc123" 5000 = none :=
  ⟨c6_cache_roundtrip.1 ⟨[]⟩ "abc123" c6Env 0 3600 10 (by decide),
   c6_cache_roundtrip.2.1 ⟨[]⟩ "abc123" 10 rfl,
   c6_cache_roundtrip.2.2 ⟨[("abc123", c6Env, 3600)]⟩ "abc123" "abc123" c6Env 3600 5000 rfl
     (by decide)⟩

/-! ### Orchestrator (C7) -/

/-- C7: when the fingerprint has a live cache entry, `processVideo` responds
with the cached envelope, `cached: true`, an unchanged store and zero AI
client invocations; on a cache miss with a non-empty transcript and a
successful generation, it responds `cached: false` after exactly one AI
invocation and writes the new envelope to the cache. -/
theorem c7_cache_hit_bypasses_ai (videoUrl : String) (st : TTLStore) (now ttl : Nat)
    (fetch : String → Except String String) (ai : String → Except String LearningBundle)
    (duration : Nat) (timestamp : String) :
    (∀ vid env, extractVideoId videoUrl = some vid → cacheGet st vid now = some env →
        processVideo videoUrl st now ttl fetch ai duration timestamp
          = (.success env true, st, 0))
    ∧ (∀ vid t b, extractVideoId videoUrl = some vid → cacheGet st vid now = none →
        fetch vid = .ok t → t ≠ "" → ai t = .ok b →
        ∃ env, processVideo videoUrl st now ttl fetch ai duration timestamp
          = (.success env false, storeSet st vid env now ttl, 1)) := by
  constructor
  · intro vid env h1 h2
    simp [processVideo, h1, h2]
  · intro vid t b h1 h2 h3 h4 h5
    refine ⟨{ videoId := some vid, videoUrl := some videoUrl
              title := if b.title = "" then "Educational Video" else b.title
              summary := b.summary, keyPoints := b.keyPoints, quiz := b.quiz
              metadata := ⟨t.length, duration, timestamp⟩ }, ?_⟩
    simp [processVideo, h1, h2, h3, h4, h5, cacheSet]

/-- C7 witness: a hit against a warm store returns the cached envelope
without any AI invocation, and a miss against an empty store invokes the AI
client once and responds `cached: false`. -/
theorem c7_cache_hit_bypasses_ai_witness :
    processVideo "dQw4w9WgXcQ" (cacheSet ⟨[]⟩ "dQw4w9WgXcQ" c7Env 0 3600).1 10 3600
        (fun _ => .error "offline") (fun _ => .error "offline") 0 "ts"
      = (.success c7Env true, (cacheSet ⟨[]⟩ "dQw4w9WgXcQ" c7Env 0 3600).1, 0)
    ∧ ∃ env, processVideo "dQw4w9WgXcQ" ⟨[]⟩ 10 3600
        (fun _ => .ok "tr") (fun _ => .ok c7Bundle) 0 "ts"
      = (.success env false, storeSet ⟨[]⟩ "dQw4w9WgXcQ" env 10 3600, 1) :=
  ⟨(c7_cache_hit_bypasses_ai "dQw4w9WgXcQ" (cacheSet ⟨[]⟩ "dQw4w9WgXcQ" c7Env 0 3600).1
      10 3600 (fun _ => .error "offline") (fun _ => .error "offline") 0 "ts").1
      "dQw4w9WgXcQ" c7Env rfl rfl,
   (c7_cache_hit_bypasses_ai "dQw4w9WgXcQ" ⟨[]⟩ 10 3600
      (fun _ => .ok "tr") (fun _ => .ok c7Bundle) 0 "ts").2
      "dQw4w9WgXcQ" "tr" c7Bundle rfl rfl rfl (by decide) rfl⟩

/-! ### `extractVideoId` result shape (C9) -/

theorem grab11_shape (l r : List Char) (h : grab11 l = some r) :
    r.length = 11 ∧ r.all idChar = true := by
  simp only [grab11] at h
  split at h
  · next hc =>
    simp only [Option.some.injEq] at h
    subst h
    simpa using hc
  · exact absurd h (by simp)

theorem bind_grab11_shape (o : Option (List Char)) (r : List Char)
    (h : o.bind grab11 = some r) : r.length = 11 ∧ r.all idChar = true := by
  cases o with
  | none => simp at h
  | some rest => exact grab11_shape rest r (by simpa using h)

theorem tryMarkersHere_shape (l r : List Char) (h : tryMarkersHere l = some r) :
    r.length = 11 ∧ r.all idChar = true := by
  simp only [tryMarkersHere] at h
  cases h1 : (stripLit watchMarker l).bind grab11 with
  | some v =>
    rw [h1] at h
    simp only [Option.some.injEq] at h
    subst h
    exact bind_grab11_shape _ _ h1
  | none =>
    rw [h1] at h
    simp only [] at h
    cases h2 : (stripLit shortMarker l).bind grab11 with
    | some v =>
      rw [h2] at h
      simp only [Option.some.injEq] at h
      subst h
      exact bind_grab11_shape _ _ h2
    | none =>
      rw [h2] at h
      simp only [] at h
      exact bind_grab11_shape _ _ h

theorem scanMarkers_shape : ∀ (l r : List Char), scanMarkers l = some r →
    r.length = 11 ∧ r.all idChar = true := by
  intro l
  induction l with
  | nil => intro r h; simp [scanMarkers] at h
  | cons c cs ih =>
    intro r h
    simp only [scanMarkers] at h
    cases ht : tryMarkersHere (c :: cs) with
    | some v =>
      rw [ht] at h
      simp only [Option.some.injEq] at h
      subst h
      exact tryMarkersHere_shape _ _ ht
    | none =>
      rw [ht] at h
      simp only [] at h
      exact ih r h

/-- C9: `extractVideoId` is total on strings (it is a function into
`Option`), and whenever it returns an identifier, the identifier has exactly
11 characters, all drawn from `[a-zA-Z0-9_-]`. -/
theorem c9_extract_video_id_shape (url s : String) (h : extractVideoId url = some s) :
    s.length = 11 ∧ s.data.all idChar = true := by
  simp only [extractVideoId] at h
  cases hm : scanMarkers url.data with
  | some vid =>
    rw [hm] at h
    simp only [Option.some.injEq] at h
    subst h
    exact scanMarkers_shape url.data vid hm
  | none =>
    rw [hm] at h
    simp only [] at h
    split at h
    · next hc =>
      simp only [Option.some.injEq] at h
      subst h
      simpa using hc
    · exact absurd h (by simp)

/-- C9 witness: the shape theorem applied to a concrete successful
extraction. -/
theorem c9_extract_video_id_shape_witness :
    ("dQw4w9WgXcQ" : String).length = 11
    ∧ ("dQw4w9WgXcQ" : String).data.all idChar = true :=
  c9_extract_video_id_shape "dQw4w9WgXcQ" "dQw4w9WgXcQ" rfl

/-! ### Title fallback (C10) -/

/-- C10: if the generation call behind `extractTitle` fails for any reason,
the fixed fallback `Educational Video` is returned instead of an error, and
a title failure alone never fails `processTranscript`: when the other three
artifacts succeed, the bundle is produced with the fallback title. -/
theorem c10_title_fallback (transcript : String) (gen : String → Except String String)
    (e : String)
    (h : gen (titlePrompt ⟨(truncateTranscript transcript 12000).data.take 500⟩)
        = .error e) :
    extractTitle (truncateTranscript transcript 12000) gen = "Educational Video"
    ∧ ∀ s kp qs, generateSummary (truncateTranscript transcript 12000) gen = .ok s →
        generateKeyPoints (truncateTranscript transcript 12000) gen = .ok kp →
        generateQuiz (truncateTranscript transcript 12000) gen = .ok qs →
        processTranscriptAI transcript gen = .ok ⟨"Educational Video", s, kp, qs⟩ := by
  have htitle : extractTitle (truncateTranscript transcript 12000) gen
      = "Educational Video" := by
    simp [extractTitle, h]
  refine ⟨htitle, ?_⟩
  intro s kp qs hs hk hq
  simp [processTranscriptAI, hs, hk, hq, htitle]

/-- C10 witness: a concrete oracle failing exactly on the title prompt still
yields a full bundle, titled `Educational Video`. -/
theorem c10_title_fallback_witness :
    processTranscriptAI "tx" c10Gen
      = .ok ⟨"Educational Video", "[]", [], (padQuiz 10 []).take 10⟩ :=
  (c10_title_fallback "tx" c10Gen "boom" rfl).2 "[]" [] ((padQuiz 10 []).take 10)
    rfl rfl rfl

/-! ### Validation bounds (C3) -/

theorem length_mk (l : List Char) : (⟨l⟩ : String).length = l.length := rfl

theorem dropWhileLen (p : Char → Bool) : ∀ l : List Char, (l.dropWhile p).length ≤ l.length := by
  intro l
  induction l with
  | nil => simp
  | cons x xs ih =>
    rw [List.dropWhile_cons]
    split
    · exact le_trans ih (Nat.le_succ _)
    · simp

theorem trimL_length_le (l : List Char) : (trimL l).length ≤ l.length := by
  have h1 : (l.dropWhile isJsWs).length ≤ l.length := dropWhileLen isJsWs l
  have h2 : (dropTrail (l.dropWhile isJsWs)).length ≤ (l.dropWhile isJsWs).length := by
    rw [dropTrail, List.length_reverse]
    calc ((l.dropWhile isJsWs).reverse.dropWhile isJsWs).length
        ≤ (l.dropWhile isJsWs).reverse.length := dropWhileLen isJsWs _
      _ = (l.dropWhile isJsWs).length := List.length_reverse _
  exact le_trans h2 h1

/-- C3 (amended): every 99-character transcript is rejected and every
50,001-character transcript is rejected, as claimed; but a 100-character
transcript is accepted exactly when its *trimmed* length is still 100
(no leading or trailing whitespace), because the minimum-length check runs
on the trimmed string. -/
theorem c3_validate_amended (t : String) :
    (t.length = 99 → validateTranscript t ≠ .ok)
    ∧ (t.length = 100 → (validateTranscript t = .ok ↔ (jsTrim t).length = 100))
    ∧ (t.length = 50001 → validateTranscript t ≠ .ok) := by
  have htle : (jsTrim t).length ≤ t.length := by
    have : (trimL t.data).length ≤ t.data.length := trimL_length_le t.data
    exact this
  refine ⟨?_, ?_, ?_⟩
  · intro h99
    have hne : t ≠ "" := fun he => by subst he; exact absurd h99 (by decide)
    have hlt : (jsTrim t).length < 100 := by omega
    simp [validateTranscript, hne, hlt]
  · intro h100
    have hne : t ≠ "" := fun he => by subst he; exact absurd h100 (by decide)
    constructor
    · intro hok
      by_cases hlt : (jsTrim t).length < 100
      · simp [validateTranscript, hne, hlt] at hok
      · omega
    · intro htr
      have hnlt : ¬ (jsTrim t).length < 100 := by omega
      have hngt : ¬ t.length > 50000 := by omega
      simp [validateTranscript, hne, hnlt, hngt]
  · intro h50
    have hne : t ≠ "" := fun he => by subst he; exact absurd h50 (by decide)
    by_cases hlt : (jsTrim t).length < 100
    · simp [validateTranscript, hne, hlt]
    · have hgt : t.length > 50000 := by omega
      simp [validateTranscript, hne, hlt, hgt]

/-- C3 witness: the three bounds at concrete transcripts (99 and 50,001
characters rejected; 100 characters accepted when trim-stable). -/
theorem c3_validate_witness :
    validateTranscript ⟨List.replicate 99 'a'⟩ ≠ .ok
    ∧ validateTranscript ⟨List.replicate 100 'a'⟩ = .ok
    ∧ validateTranscript ⟨List.replicate 50001 'a'⟩ ≠ .ok := by
  refine ⟨?_, ?_, ?_⟩
  · exact (c3_validate_amended _).1 (by rw [length_mk, List.length_replicate])
  · exact ((c3_validate_amended _).2.1 (by rw [length_mk, List.length_replicate])).mpr
      (by decide)
  · exact (c3_validate_amended _).2.2 (by rw [length_mk, List.length_replicate])

/-! ### Extraction fallback chain (C4) -/

/-- C4 (amended): extraction attempts the direct parse, then the fenced code
block, then the greedy first-`[`-to-last-`]` array span, then the greedy
object span, in that order.  However a fallback commits once its pattern
matches: `JSON.parse` failure on extracted text propagates immediately — it
does not try the remaining strategies (see the counterexample) — and the
span search is a greedy regex, not bracket matching. -/
theorem c4_extract_amended (content : String) (v : Json) :
    extractJSON content = .ok v ↔
      parseJson content = some v
      ∨ (parseJson content = none
          ∧ ∃ inner, fenceMatch content = some inner ∧ parseJson inner = some v)
      ∨ (parseJson content = none ∧ fenceMatch content = none
          ∧ ∃ sub, spanGreedy '[' ']' content.data = some sub ∧ parseJson ⟨sub⟩ = some v)
      ∨ (parseJson content = none ∧ fenceMatch content = none
          ∧ spanGreedy '[' ']' content.data = none
          ∧ ∃ sub, spanGreedy (Char.ofNat 123) (Char.ofNat 125) content.data = some sub
              ∧ parseJson ⟨sub⟩ = some v) := by
  constructor
  · intro h
    simp only [extractJSON] at h
    cases hp : parseJson content with
    | some w =>
      rw [hp] at h
      simp only [Except.ok.injEq] at h
      subst h
      exact Or.inl rfl
    | none =>
      rw [hp] at h
      simp only [] at h
      cases hf : fenceMatch content with
      | some inner =>
        rw [hf] at h
        simp only [] at h
        cases hpi : parseJson inner with
        | some w =>
          rw [hpi] at h
          simp only [Except.ok.injEq] at h
          subst h
          exact Or.inr (Or.inl ⟨rfl, inner, rfl, hpi⟩)
        | none => rw [hpi] at h; simp at h
      | none =>
        rw [hf] at h
        simp only [] at h
        cases ha : spanGreedy '[' ']' content.data with
        | some sub =>
          rw [ha] at h
          simp only [] at h
          cases hpa : parseJson ⟨sub⟩ with
          | some w =>
            rw [hpa] at h
            simp only [Except.ok.injEq] at h
            subst h
            exact Or.inr (Or.inr (Or.inl ⟨rfl, rfl, sub, rfl, hpa⟩))
          | none => rw [hpa] at h; simp at h
        | none =>
          rw [ha] at h
          simp only [] at h
          cases ho : spanGreedy (Char.ofNat 123) (Char.ofNat 125) content.data with
          | some sub =>
            rw [ho] at h
            simp only [] at h
            cases hpo : parseJson ⟨sub⟩ with
            | some w =>
              rw [hpo] at h
              simp only [Except.ok.injEq] at h
              subst h
              exact Or.inr (Or.inr (Or.inr ⟨rfl, rfl, rfl, sub, rfl, hpo⟩))
            | none => rw [hpo] at h; simp at h
          | none => rw [ho] at h; simp at h
  · intro h
    rcases h with hp | ⟨hp, inner, hf, hpi⟩ | ⟨hp, hf, sub, ha, hpa⟩
      | ⟨hp, hf, ha, sub, ho, hpo⟩
    · simp [extractJSON, hp]
    · simp [extractJSON, hp, hf, hpi]
    · simp [extractJSON, hp, hf, ha, hpa]
    · simp [extractJSON, hp, hf, ha, ho, hpo]

/-- C4 witness: the characterization applied at a concrete input through its
first disjunct. -/
theorem c4_extract_amended_witness :
    extractJSON "[1]" = .ok (.arr [.num "1"]) :=
  (c4_extract_amended "[1]" (.arr [.num "1"])).mpr (Or.inl rfl)

/-! ### Cleaning idempotence (C2) -/

theorem mem_collapseAux : ∀ (b : Bool) (l : List Char) (c : Char),
    c ∈ collapseAux b l → c ∈ l ∨ c = ' ' := by
  intro b l
  induction l generalizing b with
  | nil => intro c h; simp [collapseAux] at h
  | cons x xs ih =>
    intro c h
    simp only [collapseAux] at h
    cases hx : isJsWs x with
    | true =>
      rw [hx] at h
      simp only [if_true] at h
      cases b with
      | true =>
        simp only [if_true] at h
        rcases ih true c h with hin | hsp
        · exact Or.inl (List.mem_cons_of_mem x hin)
        · exact Or.inr hsp
      | false =>
        simp only [Bool.false_eq_true, if_false] at h
        rcases List.mem_cons.1 h with rfl | h2
        · exact Or.inr rfl
        · rcases ih true c h2 with hin | hsp
          · exact Or.inl (List.mem_cons_of_mem x hin)
          · exact Or.inr hsp
    | false =>
      rw [hx] at h
      simp only [Bool.false_eq_true, if_false] at h
      rcases List.mem_cons.1 h with rfl | h2
      · exact Or.inl (List.mem_cons_self c xs)
      · rcases ih false c h2 with hin | hsp
        · exact Or.inl (List.mem_cons_of_mem x hin)
        · exact Or.inr hsp

theorem removeDelim_id (o cl : Char) : ∀ (fuel : Nat) (l : List Char),
    o ∉ l → removeDelim o cl fuel l = l := by
  intro fuel l
  induction l generalizing fuel with
  | nil => intro _; cases fuel <;> rfl
  | cons x xs ih =>
    intro h
    cases fuel with
    | zero => rfl
    | succ f =>
      have hx : ¬ x = o := fun he => h (he ▸ List.mem_cons_self x xs)
      simp only [removeDelim, if_neg hx]
      rw [ih f fun hm => h (List.mem_cons_of_mem x hm)]

theorem removeArtifact_id : ∀ l : List Char, art1 ∉ l → removeArtifact l = l := by
  intro l
  induction l with
  | nil => intro _; rfl
  | cons x xs ih =>
    intro h
    cases xs with
    | nil => rfl
    | cons y ys =>
      cases ys with
      | nil => rfl
      | cons z rest =>
        have hx : ¬ x = art1 := fun he => h (he ▸ List.mem_cons_self x _)
        have hcond : ¬ (x = art1 && y = art2 && z = art3) = true := by
          simp [hx]
        simp only [removeArtifact, if_neg hcond]
        rw [ih fun hm => h (List.mem_cons_of_mem x hm)]

theorem allWsSpace_collapseAux : ∀ (b : Bool) (l : List Char),
    allWsSpace (collapseAux b l) = true := by
  intro b l
  induction l generalizing b with
  | nil => rfl
  | cons x xs ih =>
    simp only [collapseAux]
    cases hx : isJsWs x with
    | true =>
      simp only [if_true]
      cases b with
      | true => exact ih true
      | false =>
        simp only [Bool.false_eq_true, if_false]
        rw [allWsSpace, List.all_cons]
        have hxs := ih true
        rw [allWsSpace] at hxs
        rw [hxs]
        decide
    | false =>
      simp only [Bool.false_eq_true, if_false]
      rw [allWsSpace, List.all_cons]
      have hxs := ih false
      rw [allWsSpace] at hxs
      rw [hxs, hx]
      simp

theorem headNotWs_collapseAux_true : ∀ l : List Char,
    headNotWs (collapseAux true l) = true := by
  intro l
  induction l with
  | nil => rfl
  | cons x xs ih =>
    simp only [collapseAux]
    cases hx : isJsWs x with
    | true => simpa using ih
    | false => simp [headNotWs, hx]

theorem noAdjWs_cons_of (c : Char) (l : List Char)
    (h1 : isJsWs c = false ∨ headNotWs l = true) (h2 : noAdjWs l = true) :
    noAdjWs (c :: l) = true := by
  cases l with
  | nil => rfl
  | cons d rest =>
    simp only [noAdjWs, Bool.and_eq_true]
    refine ⟨?_, h2⟩
    rcases h1 with hc | hd
    · simp [hc]
    · simp only [headNotWs] at hd
      have hd' : isJsWs d = false := by simpa using hd
      simp [hd']

theorem noAdjWs_collapseAux : ∀ (b : Bool) (l : List Char),
    noAdjWs (collapseAux b l) = true := by
  intro b l
  induction l generalizing b with
  | nil => rfl
  | cons x xs ih =>
    simp only [collapseAux]
    cases hx : isJsWs x with
    | true =>
      simp only [if_true]
      cases b with
      | true => exact ih true
      | false =>
        simp only [Bool.false_eq_true, if_false]
        exact noAdjWs_cons_of _ _ (Or.inr (headNotWs_collapseAux_true xs)) (ih true)
    | false =>
      simp only [Bool.false_eq_true, if_false]
      exact noAdjWs_cons_of _ _ (Or.inl hx) (ih false)

theorem noAdjWs_tail (c : Char) (l : List Char) (h : noAdjWs (c :: l) = true) :
    noAdjWs l = true := by
  cases l with
  | nil => rfl
  | cons d rest =>
    simp only [noAdjWs, Bool.and_eq_true] at h
    exact h.2

theorem allWsSpace_space (l : List Char) (c : Char) (hA : allWsSpace l = true)
    (hc : c ∈ l) (hw : isJsWs c = true) : c = ' ' := by
  rw [allWsSpace, List.all_eq_true] at hA
  have := hA c hc
  simp [hw] at this
  exact this

theorem collapseAux_id_of_normal : ∀ l : List Char,
    allWsSpace l = true → noAdjWs l = true →
    collapseAux false l = l ∧ (headNotWs l = true → collapseAux true l = l) := by
  intro l
  induction l with
  | nil => exact fun _ _ => ⟨rfl, fun _ => rfl⟩
  | cons x xs ih =>
    intro hA hN
    have hA' : allWsSpace xs = true := by
      rw [allWsSpace, List.all_cons, Bool.and_eq_true] at hA
      exact hA.2
    have hN' : noAdjWs xs = true := noAdjWs_tail x xs hN
    obtain ⟨ihf, iht⟩ := ih hA' hN'
    cases hx : isJsWs x with
    | false =>
      constructor
      · simp only [collapseAux, hx, Bool.false_eq_true, if_false]
        rw [ihf]
      · intro _
        simp only [collapseAux, hx, Bool.false_eq_true, if_false]
        rw [ihf]
    | true =>
      have hsp : x = ' ' := allWsSpace_space _ x hA (List.mem_cons_self x xs) hx
      have hhead : headNotWs xs = true := by
        cases xs with
        | nil => rfl
        | cons d rest =>
          simp only [noAdjWs, Bool.and_eq_true] at hN
          have hnd := hN.1
          simp only [hx, Bool.not_eq_true'] at hnd
          have hd' : isJsWs d = false := by simpa using hnd
          simp [headNotWs, hd']
      constructor
      · simp only [collapseAux, hx, if_true, Bool.false_eq_true, if_false]
        rw [iht hhead, hsp]
      · intro hh
        simp only [headNotWs, hx] at hh
        exact absurd hh (by decide)

theorem mem_of_mem_dropWhileWs : ∀ l : List Char, ∀ c : Char,
    c ∈ l.dropWhile isJsWs → c ∈ l := by
  intro l
  induction l with
  | nil => intro c h; simp at h
  | cons x xs ih =>
    intro c h
    rw [List.dropWhile_cons] at h
    split at h
    · exact List.mem_cons_of_mem x (ih c h)
    · exact h

theorem mem_of_mem_dropTrail (l : List Char) (c : Char) (h : c ∈ dropTrail l) :
    c ∈ l := by
  rw [dropTrail, List.mem_reverse] at h
  exact List.mem_reverse.1 (mem_of_mem_dropWhileWs l.reverse c h)

theorem mem_of_mem_trimL (l : List Char) (c : Char) (h : c ∈ trimL l) : c ∈ l :=
  mem_of_mem_dropWhileWs l c (mem_of_mem_dropTrail (l.dropWhile isJsWs) c h)

theorem headNotWs_dropWhile : ∀ l : List Char,
    headNotWs (l.dropWhile isJsWs) = true := by
  intro l
  induction l with
  | nil => rfl
  | cons x xs ih =>
    rw [List.dropWhile_cons]
    split
    · exact ih
    · next hx => simp [headNotWs, hx]

theorem dropWhile_eq_self_of_headNotWs (l : List Char) (h : headNotWs l = true) :
    l.dropWhile isJsWs = l := by
  cases l with
  | nil => rfl
  | cons x xs =>
    simp only [headNotWs, Bool.not_eq_true'] at h
    rw [List.dropWhile_cons, if_neg (by simp [h])]

theorem dropWhileWs_idem (l : List Char) :
    (l.dropWhile isJsWs).dropWhile isJsWs = l.dropWhile isJsWs :=
  dropWhile_eq_self_of_headNotWs _ (headNotWs_dropWhile l)

theorem dropTrail_idem (l : List Char) : dropTrail (dropTrail l) = dropTrail l := by
  rw [dropTrail, dropTrail, List.reverse_reverse, dropWhileWs_idem]

theorem dropTrail_decomp (l : List Char) :
    l = dropTrail l ++ (l.reverse.takeWhile isJsWs).reverse := by
  conv_lhs => rw [← List.reverse_reverse l,
    ← List.takeWhile_append_dropWhile isJsWs l.reverse]
  rw [List.reverse_append]
  rfl

theorem headNotWs_prefix (l₁ l₂ : List Char) (h : headNotWs (l₁ ++ l₂) = true) :
    headNotWs l₁ = true := by
  cases l₁ with
  | nil => rfl
  | cons x xs => simpa [headNotWs] using h

theorem headNotWs_dropTrail (l : List Char) (h : headNotWs l = true) :
    headNotWs (dropTrail l) = true := by
  have hd := dropTrail_decomp l
  rw [hd] at h
  exact headNotWs_prefix _ _ h

theorem trimL_idem (l : List Char) : trimL (trimL l) = trimL l := by
  rw [trimL, trimL]
  rw [dropWhile_eq_self_of_headNotWs (dropTrail (l.dropWhile isJsWs))
    (headNotWs_dropTrail _ (headNotWs_dropWhile l))]
  exact dropTrail_idem _

theorem noAdjWs_append_left : ∀ l₁ l₂ : List Char,
    noAdjWs (l₁ ++ l₂) = true → noAdjWs l₁ = true := by
  intro l₁ l₂
  induction l₁ with
  | nil => intro _; rfl
  | cons x xs ih =>
    intro h
    cases xs with
    | nil => rfl
    | cons y rest =>
      simp only [List.cons_append, noAdjWs, Bool.and_eq_true] at h ⊢
      exact ⟨h.1, ih (by simpa using h.2)⟩

theorem noAdjWs_dropWhile (l : List Char) (h : noAdjWs l = true) :
    noAdjWs (l.dropWhile isJsWs) = true := by
  induction l with
  | nil => rfl
  | cons x xs ih =>
    rw [List.dropWhile_cons]
    split
    · exact ih (noAdjWs_tail x xs h)
    · exact h

theorem noAdjWs_dropTrail (l : List Char) (h : noAdjWs l = true) :
    noAdjWs (dropTrail l) = true := by
  have hd := dropTrail_decomp l
  rw [hd] at h
  exact noAdjWs_append_left _ _ h

theorem noAdjWs_trimL (l : List Char) (h : noAdjWs l = true) :
    noAdjWs (trimL l) = true :=
  noAdjWs_dropTrail _ (noAdjWs_dropWhile l h)

theorem allWsSpace_trimL (l : List Char) (h : allWsSpace l = true) :
    allWsSpace (trimL l) = true := by
  rw [allWsSpace, List.all_eq_true] at h ⊢
  exact fun c hc => h c (mem_of_mem_trimL l c hc)

/-- C2 (amended): cleaning is idempotent on annotation-free transcripts —
those containing no `[`, no `(` and no music artifact.  (For transcripts
with annotations it can fail: removing an annotation leaves behind the two
whitespace characters that surrounded it, which only the next pass
collapses; see the counterexample.) -/
theorem c2_clean_idempotent_amended (s : String) (h : annotationFree s = true) :
    cleanTranscript (cleanTranscript s) = cleanTranscript s := by
  have hmem : ∀ c ∈ s.data, c ≠ '[' ∧ c ≠ '(' ∧ c ≠ art1 := by
    rw [annotationFree, List.all_eq_true] at h
    intro c hc
    simpa [and_assoc] using h c hc
  have hmemC : ∀ c ∈ collapseWs s.data, c ≠ '[' ∧ c ≠ '(' ∧ c ≠ art1 := by
    intro c hc
    rcases mem_collapseAux false s.data c hc with hin | rfl
    · exact hmem c hin
    · exact ⟨by decide, by decide, by decide⟩
  have hnb : '[' ∉ collapseWs s.data := fun hc => (hmemC _ hc).1 rfl
  have hnp : '(' ∉ collapseWs s.data := fun hc => (hmemC _ hc).2.1 rfl
  have hna : art1 ∉ collapseWs s.data := fun hc => (hmemC _ hc).2.2 rfl
  have e1 : removeDelimAll '[' ']' (collapseWs s.data) = collapseWs s.data := by
    rw [removeDelimAll]; exact removeDelim_id '[' ']' _ _ hnb
  have e2 : removeDelimAll '(' ')' (collapseWs s.data) = collapseWs s.data := by
    rw [removeDelimAll]; exact removeDelim_id '(' ')' _ _ hnp
  have e3 : removeArtifact (collapseWs s.data) = collapseWs s.data :=
    removeArtifact_id _ hna
  have hclean1 : cleanTranscript s = ⟨trimL (collapseWs s.data)⟩ := by
    rw [cleanTranscript, e1, e2, e3]
  have hmemT : ∀ c ∈ trimL (collapseWs s.data), c ≠ '[' ∧ c ≠ '(' ∧ c ≠ art1 :=
    fun c hc => hmemC c (mem_of_mem_trimL _ c hc)
  have hmemC2 : ∀ c ∈ collapseWs (trimL (collapseWs s.data)),
      c ≠ '[' ∧ c ≠ '(' ∧ c ≠ art1 := by
    intro c hc
    rcases mem_collapseAux false _ c hc with hin | rfl
    · exact hmemT c hin
    · exact ⟨by decide, by decide, by decide⟩
  have e1' : removeDelimAll '[' ']' (collapseWs (trimL (collapseWs s.data)))
      = collapseWs (trimL (collapseWs s.data)) := by
    rw [removeDelimAll]
    exact removeDelim_id '[' ']' _ _ fun hc => (hmemC2 _ hc).1 rfl
  have e2' : removeDelimAll '(' ')' (collapseWs (trimL (collapseWs s.data)))
      = collapseWs (trimL (collapseWs s.data)) := by
    rw [removeDelimAll]
    exact removeDelim_id '(' ')' _ _ fun hc => (hmemC2 _ hc).2.1 rfl
  have e3' : removeArtifact (collapseWs (trimL (collapseWs s.data)))
      = collapseWs (trimL (collapseWs s.data)) :=
    removeArtifact_id _ fun hc => (hmemC2 _ hc).2.2 rfl
  have hA : allWsSpace (trimL (collapseWs s.data)) = true :=
    allWsSpace_trimL _ (allWsSpace_collapseAux false s.data)
  have hN : noAdjWs (trimL (collapseWs s.data)) = true :=
    noAdjWs_trimL _ (noAdjWs_collapseAux false s.data)
  have hcoll : collapseWs (trimL (collapseWs s.data)) = trimL (collapseWs s.data) :=
    (collapseAux_id_of_normal _ hA hN).1
  rw [hclean1, cleanTranscript]
  show (⟨trimL (removeArtifact (removeDelimAll '(' ')'
      (removeDelimAll '[' ']' (collapseWs (trimL (collapseWs s.data))))))⟩ : String)
    = (⟨trimL (collapseWs s.data)⟩ : String)
  rw [e1', e2', e3', hcoll, trimL_idem]

/-- C2 witness: idempotence at a concrete annotation-free transcript. -/
theorem c2_clean_idempotent_witness :
    annotationFree "a  b" = true
    ∧ cleanTranscript (cleanTranscript "a  b") = cleanTranscript "a  b" :=
  ⟨by decide, c2_clean_idempotent_amended "a  b" (by decide)⟩

end LearningTool
